import Mathlib

/-!
Verification of the constraint/concepts semantic engine of
`clang/lib/Sema/SemaConcept.cpp` (satisfaction evaluation, normalization,
CNF/DNF construction, subsumption, and the two memoization caches).

The C++ code is shallowly embedded: expression trees become an inductive
type whose atoms are identified by natural numbers, the collaborator
interfaces (template-argument substitution, constant evaluation, type
queries) become function parameters, and the mutable `Sema` /
`ConstraintSatisfaction` state becomes explicit state passing.
-/

/-- Constraint expression tree, as classified by the engine: logical
binary operators `&&` / `||`, `ParenExpr` and `ExprWithCleanups`
wrappers, and everything else treated as an atomic constraint expression
(identified here by a natural number). -/
inductive CExpr : Type
  | atom (i : Nat)
  | and (l r : CExpr)
  | or (l r : CExpr)
  | paren (e : CExpr)
  | cleanups (e : CExpr)
  deriving DecidableEq, Repr

/-- The record stored in `ConstraintSatisfaction::Details` for an
unsatisfied clause: either a substitution diagnostic (SFINAE failure,
identified by a diagnostic id) or the well-formed but false substituted
expression (identified by its expression id). -/
inductive DetailRecord : Type
  | substDiag (d : Nat)
  | exprRec (e : Nat)
  deriving DecidableEq, Repr

/-- State threaded through `calculateConstraintSatisfaction`:
`isSatisfied` and `details` are the fields of the
`ConstraintSatisfaction` out-parameter; `visited` records, in order, the
atomic expressions handed to the atomic evaluator (the observable
substitution side effect); `diags` counts hard diagnostics emitted via
`Sema::Diag`. -/
structure EvalState : Type where
  isSatisfied : Bool
  details : List (Nat × DetailRecord)
  visited : List Nat
  diags : Nat
  deriving DecidableEq, Repr

/-- `ExprResult` as used by the atomic evaluator: `invalid` is a hard
error, `empty` means the evaluator decided satisfaction without yielding
an expression, `usable` carries the substituted expression id. -/
inductive ExprResult : Type
  | invalid
  | empty
  | usable (e : Nat)
  deriving DecidableEq, Repr

/-- An atomic evaluator: takes the atomic expression id and the current
state, returns an `ExprResult` and the updated state (the substituting
evaluator mutates `Satisfaction` on SFINAE failure and on the
instantiation-dependent path). -/
abbrev AtomicEvaluator : Type := Nat → EvalState → ExprResult × EvalState

/-- The first (generic) `calculateConstraintSatisfaction`: recursive
descent over `&&` / `||` with short-circuiting, transparent unwrapping of
parens and cleanups, and for an atomic expression: run the evaluator,
then constant-evaluate the substituted expression (`constEval`; `none`
models failure of `EvaluateAsRValue`, which emits
`err_non_constant_constraint_expression` and hard-fails).  The returned
`Bool` is the C++ return value: `true` means hard failure. -/
def calculateConstraintSatisfaction (eval : AtomicEvaluator)
    (constEval : Nat → Option Bool) : CExpr → EvalState → Bool × EvalState
  | CExpr.and l r, st =>
      match calculateConstraintSatisfaction eval constEval l st with
      | (true, st1) => (true, st1)
      | (false, st1) =>
          if st1.isSatisfied then
            calculateConstraintSatisfaction eval constEval r st1
          else
            (false, st1)
  | CExpr.or l r, st =>
      match calculateConstraintSatisfaction eval constEval l st with
      | (true, st1) => (true, st1)
      | (false, st1) =>
          if st1.isSatisfied then
            (false, st1)
          else
            calculateConstraintSatisfaction eval constEval r st1
  | CExpr.paren e, st => calculateConstraintSatisfaction eval constEval e st
  | CExpr.cleanups e, st => calculateConstraintSatisfaction eval constEval e st
  | CExpr.atom i, st =>
      let st1 : EvalState := { st with visited := st.visited ++ [i] }
      match eval i st1 with
      | (ExprResult.invalid, st2) => (true, st2)
      | (ExprResult.empty, st2) => (false, st2)
      | (ExprResult.usable se, st2) =>
          match constEval se with
          | none => (true, { st2 with diags := st2.diags + 1 })
          | some b =>
              if b then
                (false, { st2 with isSatisfied := true })
              else
                (false,
                 { st2 with
                     isSatisfied := false
                     details := st2.details ++ [(i, DetailRecord.exprRec se)] })

/-- Outcome of `Sema::SubstExpr` on an atomic constraint under an SFINAE
trap: success (with the substituted expression id and whether it is still
instantiation-dependent), a trapped SFINAE diagnostic, or a hard
(non-SFINAE) error. -/
inductive SubstOutcome : Type
  | ok (se : Nat) (instDependent : Bool)
  | sfinaeFail (d : Nat)
  | hardFail
  deriving DecidableEq, Repr

/-- The substituting atomic evaluator (the lambda inside the second
`calculateConstraintSatisfaction` overload): create the instantiation
frame (`instOk = false` models an invalid frame), substitute under an
SFINAE trap, record a trapped diagnostic as an unsatisfied detail, treat
an instantiation-dependent result as tentatively satisfied, and re-check
well-formedness of the substituted expression (`wf`; failure emits a
diagnostic and hard-fails). -/
def substEvaluator (instOk : Bool) (subst : Nat → SubstOutcome)
    (wf : Nat → Bool) : AtomicEvaluator := fun i st =>
  if instOk then
    match subst i with
    | SubstOutcome.sfinaeFail d =>
        (ExprResult.empty,
         { st with
             isSatisfied := false
             details := st.details ++ [(i, DetailRecord.substDiag d)] })
    | SubstOutcome.hardFail => (ExprResult.invalid, st)
    | SubstOutcome.ok se dep =>
        if dep then
          (ExprResult.empty, { st with isSatisfied := true })
        else if wf se then
          (ExprResult.usable se, st)
        else
          (ExprResult.invalid, { st with diags := st.diags + 1 })
  else
    (ExprResult.invalid, st)

/-- The identity evaluator used by
`Sema::CheckConstraintSatisfaction(const Expr *, ConstraintSatisfaction &)`:
returns the atomic expression itself. -/
def identityEvaluator : AtomicEvaluator := fun i st => (ExprResult.usable i, st)

/-- `Sema::CheckConstraintSatisfaction(const Expr *, ConstraintSatisfaction &)`:
evaluation of an already-substituted constraint expression. -/
def CheckConstraintSatisfactionExpr (constEval : Nat → Option Bool)
    (e : CExpr) (st : EvalState) : Bool × EvalState :=
  calculateConstraintSatisfaction identityEvaluator constEval e st

/-- The static `CheckConstraintSatisfaction` loop over a list of
top-level constraint expressions: each expression is evaluated in turn;
hard failure or unsatisfaction stops the loop (the list is an implicit
conjunction). -/
def CheckConstraintSatisfactionSeq (eval : AtomicEvaluator)
    (constEval : Nat → Option Bool) : List CExpr → EvalState → Bool × EvalState
  | [], st => (false, st)
  | e :: rest, st =>
      match calculateConstraintSatisfaction eval constEval e st with
      | (true, st1) => (true, st1)
      | (false, st1) =>
          if st1.isSatisfied then
            CheckConstraintSatisfactionSeq eval constEval rest st1
          else
            (false, st1)

/-- The `ConstraintSatisfaction` record as cached: the satisfaction flag
and the ordered details list. -/
structure SatRecord : Type where
  isSatisfied : Bool
  details : List (Nat × DetailRecord)
  deriving DecidableEq, Repr

/-- Association-list lookup, modelling `FoldingSet::FindNodeOrInsertPos`
and `DenseMap::find` on the caches. -/
def assocLookup {K V : Type} [DecidableEq K] : List (K × V) → K → Option V
  | [], _ => none
  | (k, v) :: rest, key => if k = key then some v else assocLookup rest key

/-- The mutable `Sema` state relevant to the cached satisfaction entry
point: the satisfaction cache keyed by (canonical owner decl, innermost
template arguments) and a running count of atomic substitutions
performed (the observable substitution side-effect counter). -/
structure SemaState : Type where
  satCache : List ((Nat × List Nat) × SatRecord)
  substTotal : Nat
  deriving DecidableEq, Repr

/-- `Sema::CheckConstraintSatisfaction(ConstraintOwner, Template,
ConstraintExprs, TemplateArgs, TemplateIDRange, Satisfaction)`: the
cached top-level entry point.  An empty constraint list is satisfied
outright, before the cache is consulted.  On a miss the instantiation
frame is created (`instValid = false` models an invalid frame and a hard
failure), a fresh record is computed, inserted into the cache, and
copied to the caller; on a hit the cached record is copied to the
caller.  `satIn` is the incoming value of the caller's out-parameter. -/
def CheckConstraintSatisfactionCached (eval : AtomicEvaluator)
    (constEval : Nat → Option Bool) (instValid : Bool)
    (owner : Nat) (innermost : List Nat) (exprs : List CExpr)
    (satIn : SatRecord) (st : SemaState) : Bool × SatRecord × SemaState :=
  match exprs with
  | [] => (false, { satIn with isSatisfied := true }, st)
  | e0 :: rest =>
      match assocLookup st.satCache (owner, innermost) with
      | some cached => (false, cached, st)
      | none =>
          if instValid then
            let r := CheckConstraintSatisfactionSeq eval constEval (e0 :: rest)
                { isSatisfied := false, details := [], visited := [], diags := 0 }
            let stSub : SemaState :=
                { st with substTotal := st.substTotal + r.2.visited.length }
            if r.1 then
              (true, satIn, stSub)
            else
              let fresh : SatRecord :=
                  { isSatisfied := r.2.isSatisfied, details := r.2.details }
              (false, fresh,
               { stSub with
                   satCache := stSub.satCache ++ [((owner, innermost), fresh)] })
          else
            (true, satIn, st)

/-- `NormalizedConstraint`: an atomic constraint leaf (identified by a
natural number standing for the `AtomicConstraint *`) or a compound node
with a conjunction/disjunction kind. -/
inductive NormalizedConstraint : Type
  | atomic (a : Nat)
  | comp (conjunction : Bool) (l r : NormalizedConstraint)
  deriving DecidableEq, Repr

/-- A `NormalForm`: a two-level sequence of atomic-constraint ids. -/
abbrev NormalForm : Type := List (List Nat)

/-- Models the loop
`while (!RCNF.empty()) LCNF.push_back(RCNF.pop_back_val());`
of `makeCNF` / `makeDNF`: repeatedly pop the last clause of `R` and push
it onto `L`. -/
def popAllIntoLoop (L R : NormalForm) : NormalForm :=
  if h : R = [] then L
  else popAllIntoLoop (L ++ [R.getLast h]) R.dropLast
termination_by R.length
decreasing_by
  simp [List.length_dropLast]
  exact List.length_pos.mpr h

/-- `makeCNF`: atomic leaf gives a singleton clause; a conjunction
concatenates via the pop-back loop; a disjunction distributes by the
Cartesian product of clauses (outer loop over the left clauses). -/
def makeCNF : NormalizedConstraint → NormalForm
  | NormalizedConstraint.atomic a => [[a]]
  | NormalizedConstraint.comp k l r =>
      let L := makeCNF l
      let R := makeCNF r
      if k then
        popAllIntoLoop L R
      else
        L.flatMap (fun ld => R.map (fun rd => ld ++ rd))

/-- `makeDNF`: mirror of `makeCNF` with the kinds swapped. -/
def makeDNF : NormalizedConstraint → NormalForm
  | NormalizedConstraint.atomic a => [[a]]
  | NormalizedConstraint.comp k l r =>
      let L := makeDNF l
      let R := makeDNF r
      if k then
        L.flatMap (fun ld => R.map (fun rd => ld ++ rd))
      else
        popAllIntoLoop L R

/-- The static `subsumes` function: build the DNF of `P` and the CNF of
`Q`; for every clause pair, some atom of the `P`-clause must be related
by the leaf predicate `E` to some atom of the `Q`-clause.  The first
component is the C++ return value (procedural failure, always `false`
here); the second is the `DoesSubsume` out-parameter. -/
def subsumes (E : Nat → Nat → Bool) (P Q : NormalizedConstraint) :
    Bool × Bool :=
  let PDNF := makeDNF P
  let QCNF := makeCNF Q
  (false,
   PDNF.all fun Pi => QCNF.all fun Qj =>
     Pi.any fun a => Qj.any fun b => E a b)

/-- `Sema::CheckConstraintExpression(ConstraintExpression, Culprit)`:
`&&` / `||` nodes recurse into both sides (the recursive calls pass a
null culprit out-pointer and C++ `&&` short-circuits); any other node is
atomic: type-dependent expressions pass, otherwise the stripped type
must be `bool` (`tyBool`), else an error is emitted at the node and,
when the out-pointer was supplied, the node is written through it.
Returns (result, value written through the culprit out-pointer, emitted
error locations in order). -/
def CheckConstraintExpression (dep tyBool : CExpr → Bool) :
    CExpr → Bool → Bool × Option CExpr × List CExpr
  | CExpr.and l r, _ =>
      match CheckConstraintExpression dep tyBool l false with
      | (true, _, dl) =>
          match CheckConstraintExpression dep tyBool r false with
          | (okR, _, dr) => (okR, none, dl ++ dr)
      | (false, _, dl) => (false, none, dl)
  | CExpr.or l r, _ =>
      match CheckConstraintExpression dep tyBool l false with
      | (true, _, dl) =>
          match CheckConstraintExpression dep tyBool r false with
          | (okR, _, dr) => (okR, none, dl ++ dr)
      | (false, _, dl) => (false, none, dl)
  | e, culpritSupplied =>
      if dep e then (true, none, [])
      else if tyBool e then (true, none, [])
      else (false, if culpritSupplied then some e else none, [e])

/-- Whether a node is treated atomically by `CheckConstraintExpression`
(everything except `&&` and `||`). -/
def isLeafNode : CExpr → Bool
  | CExpr.and _ _ => false
  | CExpr.or _ _ => false
  | _ => true

/-- The first offending atomic of the `&&` / `||`-decomposed tree, in the
traversal order of `CheckConstraintExpression`: non-type-dependent and
of non-`bool` type. -/
def firstOffendingAtomic (dep tyBool : CExpr → Bool) : CExpr → Option CExpr
  | CExpr.and l r =>
      match firstOffendingAtomic dep tyBool l with
      | some c => some c
      | none => firstOffendingAtomic dep tyBool r
  | CExpr.or l r =>
      match firstOffendingAtomic dep tyBool l with
      | some c => some c
      | none => firstOffendingAtomic dep tyBool r
  | e => if dep e then none else if tyBool e then none else some e

/-- Events that abort `NormalizedConstraint::fromConstraintExprs` other
than by returning: the `assert(E.size() != 0)` at entry, and the
undefined behaviour of dereferencing a disengaged `llvm::Optional`
(`std::move(*First)` when `First` holds no value). -/
inductive UBEvent : Type
  | assertSizeNonZero
  | derefDisengaged
  deriving DecidableEq, Repr

/-- The loop `for (unsigned I = 2; I < E.size(); ++I)` of
`fromConstraintExprs`: left-associative conjunction accumulation;
normalization failure of any clause propagates `none`. -/
def fromConstraintExprsLoop (norm : Nat → Option NormalizedConstraint)
    (acc : NormalizedConstraint) : List Nat → Option NormalizedConstraint
  | [] => some acc
  | e :: rest =>
      match norm e with
      | none => none
      | some n =>
          fromConstraintExprsLoop norm (NormalizedConstraint.comp true acc n) rest

/-- `NormalizedConstraint::fromConstraintExprs`: normalize the first
clause; a singleton list returns it as-is; otherwise normalize the
second clause (returning `none` if it fails), then dereference both
optionals to build the first conjunction — `First` is dereferenced
without a check, which is undefined behaviour when it is disengaged —
and fold the remaining clauses left-associatively.  The per-clause
normalizer `fromConstraintExpr` is abstracted as `norm` over clause
ids. -/
def fromConstraintExprs (norm : Nat → Option NormalizedConstraint) :
    List Nat → Except UBEvent (Option NormalizedConstraint)
  | [] => Except.error UBEvent.assertSizeNonZero
  | [e0] => Except.ok (norm e0)
  | e0 :: e1 :: rest =>
      let First := norm e0
      match norm e1 with
      | none => Except.ok none
      | some second =>
          match First with
          | none => Except.error UBEvent.derefDisengaged
          | some first =>
              Except.ok (fromConstraintExprsLoop norm
                (NormalizedConstraint.comp true first second) rest)

/-- The inner `Sema::IsAtLeastAsConstrained` overload (taking the two
argument lists): empty-constraint quick outs, then normalization of each
side (`normalize` abstracts `fromConstraintExprs` applied to a
declaration and its associated constraints; `none` sets the invalid
out-flag and yields `false`), then the subsumption engine with the
structural leaf predicate.  Returns (result, invalid out-flag). -/
def IsAtLeastAsConstrainedInner
    (normalize : Nat → List Nat → Option NormalizedConstraint)
    (E : Nat → Nat → Bool) (D1 : Nat) (AC1 : List Nat) (D2 : Nat)
    (AC2 : List Nat) : Bool × Bool :=
  match AC1 with
  | [] => (decide (AC2 = []), false)
  | _ =>
    match AC2 with
    | [] => (true, false)
    | _ =>
      match normalize D1 AC1 with
      | none => (false, true)
      | some N1 =>
          match normalize D2 AC2 with
          | none => (false, true)
          | some N2 => ((subsumes E N1 N2).2, false)

/-- The public cached `Sema::IsAtLeastAsConstrained(D1, AC1, D2, AC2,
Invalid)`: quick outs for empty constraint lists, then the subsumption
cache keyed on the ordered pair `(D1, D2)` (a hit returns the cached
boolean, with the invalid out-flag left at `false`); on a miss the inner
overload runs and its boolean result is inserted unconditionally.
Returns (result, invalid out-flag, updated cache). -/
def IsAtLeastAsConstrained
    (normalize : Nat → List Nat → Option NormalizedConstraint)
    (E : Nat → Nat → Bool) (D1 : Nat) (AC1 : List Nat) (D2 : Nat)
    (AC2 : List Nat) (cache : List ((Nat × Nat) × Bool)) :
    Bool × Bool × List ((Nat × Nat) × Bool) :=
  match AC1 with
  | [] => (decide (AC2 = []), false, cache)
  | _ =>
    match AC2 with
    | [] => (true, false, cache)
    | _ =>
      match assocLookup cache (D1, D2) with
      | some b => (b, false, cache)
      | none =>
          let r := IsAtLeastAsConstrainedInner normalize E D1 AC1 D2 AC2
          (r.1, r.2, cache ++ [((D1, D2), r.1)])

/-- An atomic evaluator that only ever appends to the details list (both
the substituting evaluator and the identity evaluator have this shape). -/
def EvalAppendsDetails (eval : AtomicEvaluator) : Prop :=
  ∀ (i : Nat) (st : EvalState), ∃ ds, ((eval i st).2).details = st.details ++ ds

theorem calculateConstraintSatisfaction_details_extend
    (eval : AtomicEvaluator) (constEval : Nat → Option Bool)
    (happ : EvalAppendsDetails eval) (e : CExpr) :
    ∀ st : EvalState,
      ∃ ds, ((calculateConstraintSatisfaction eval constEval e st).2).details
              = st.details ++ ds := by
  induction e with
  | atom i =>
      intro st
      obtain ⟨ds, hds0⟩ := happ i { st with visited := st.visited ++ [i] }
      rcases hv : eval i { st with visited := st.visited ++ [i] } with ⟨res, st2⟩
      rw [hv] at hds0
      have hds : st2.details = st.details ++ ds := hds0
      simp only [calculateConstraintSatisfaction]
      rw [hv]
      cases res with
      | invalid => exact ⟨ds, hds⟩
      | empty => exact ⟨ds, hds⟩
      | usable se =>
          cases hc : constEval se with
          | none =>
              refine ⟨ds, ?_⟩
              simp [hc, hds]
          | some b =>
              cases b with
              | true =>
                  refine ⟨ds, ?_⟩
                  simp [hc, hds]
              | false =>
                  refine ⟨ds ++ [(i, DetailRecord.exprRec se)], ?_⟩
                  simp [hc, hds]
  | and l r ihl ihr =>
      intro st
      obtain ⟨dl, hdl0⟩ := ihl st
      rcases hv : calculateConstraintSatisfaction eval constEval l st with ⟨f, st1⟩
      rw [hv] at hdl0
      have hdl : st1.details = st.details ++ dl := hdl0
      simp only [calculateConstraintSatisfaction]
      rw [hv]
      cases f with
      | true => exact ⟨dl, hdl⟩
      | false =>
          cases hs : st1.isSatisfied with
          | true =>
              obtain ⟨dr, hdr⟩ := ihr st1
              refine ⟨dl ++ dr, ?_⟩
              simp [hs, hdr, hdl]
          | false =>
              refine ⟨dl, ?_⟩
              simp [hs, hdl]
  | or l r ihl ihr =>
      intro st
      obtain ⟨dl, hdl0⟩ := ihl st
      rcases hv : calculateConstraintSatisfaction eval constEval l st with ⟨f, st1⟩
      rw [hv] at hdl0
      have hdl : st1.details = st.details ++ dl := hdl0
      simp only [calculateConstraintSatisfaction]
      rw [hv]
      cases f with
      | true => exact ⟨dl, hdl⟩
      | false =>
          cases hs : st1.isSatisfied with
          | true =>
              refine ⟨dl, ?_⟩
              simp [hs, hdl]
          | false =>
              obtain ⟨dr, hdr⟩ := ihr st1
              refine ⟨dl ++ dr, ?_⟩
              simp [hs, hdr, hdl]
  | paren e ih =>
      intro st
      simpa only [calculateConstraintSatisfaction] using ih st
  | cleanups e ih =>
      intro st
      simpa only [calculateConstraintSatisfaction] using ih st

/-- C1: during satisfaction evaluation of a binary logical constraint,
`A && B` with `A` unsatisfied and `A || B` with `A` satisfied return the
result of evaluating `A` alone — `B` is neither substituted nor
evaluated (the whole state, including the list of atoms handed to the
evaluator, is that of the `A`-run); when the right-hand side is visited
it is evaluated in the state left by the left-hand side, and the details
list is append-only, so entries appear in evaluation (source) order. -/
theorem calculateConstraintSatisfaction_short_circuit
    (eval : AtomicEvaluator) (constEval : Nat → Option Bool)
    (A B : CExpr) (st : EvalState) (happ : EvalAppendsDetails eval) :
    ((calculateConstraintSatisfaction eval constEval A st).1 = false →
      ((calculateConstraintSatisfaction eval constEval A st).2).isSatisfied = false →
      calculateConstraintSatisfaction eval constEval (CExpr.and A B) st
        = calculateConstraintSatisfaction eval constEval A st)
  ∧ ((calculateConstraintSatisfaction eval constEval A st).1 = false →
      ((calculateConstraintSatisfaction eval constEval A st).2).isSatisfied = true →
      calculateConstraintSatisfaction eval constEval (CExpr.or A B) st
        = calculateConstraintSatisfaction eval constEval A st)
  ∧ ((calculateConstraintSatisfaction eval constEval A st).1 = false →
      ((calculateConstraintSatisfaction eval constEval A st).2).isSatisfied = true →
      calculateConstraintSatisfaction eval constEval (CExpr.and A B) st
        = calculateConstraintSatisfaction eval constEval B
            ((calculateConstraintSatisfaction eval constEval A st).2))
  ∧ (∃ ds, ((calculateConstraintSatisfaction eval constEval A st).2).details
        = st.details ++ ds) := by
  rcases hv : calculateConstraintSatisfaction eval constEval A st with ⟨f, st1⟩
  refine ⟨?_, ?_, ?_, ?_⟩
  · intro hf hs
    simp only at hf hs
    subst hf
    simp only [calculateConstraintSatisfaction]
    rw [hv]
    simp [hs]
  · intro hf hs
    simp only at hf hs
    subst hf
    simp only [calculateConstraintSatisfaction]
    rw [hv]
    simp [hs]
  · intro hf hs
    simp only at hf hs
    subst hf
    simp only [calculateConstraintSatisfaction]
    rw [hv]
    simp [hs]
  · have h := calculateConstraintSatisfaction_details_extend eval constEval happ A st
    rw [hv] at h
    exact h

/-- Witness for C1 at concrete inputs: `atom 0` evaluates to `false`
under the identity evaluator, so `atom 0 && atom 1` short-circuits to
the result of `atom 0` alone. -/
theorem calculateConstraintSatisfaction_short_circuit_witness :
    calculateConstraintSatisfaction identityEvaluator (fun _ => some false)
        (CExpr.and (CExpr.atom 0) (CExpr.atom 1))
        { isSatisfied := false, details := [], visited := [], diags := 0 }
      = calculateConstraintSatisfaction identityEvaluator (fun _ => some false)
          (CExpr.atom 0)
          { isSatisfied := false, details := [], visited := [], diags := 0 } :=
  (calculateConstraintSatisfaction_short_circuit identityEvaluator
      (fun _ => some false) (CExpr.atom 0) (CExpr.atom 1)
      { isSatisfied := false, details := [], visited := [], diags := 0 }
      (fun i s => ⟨[], by simp [identityEvaluator]⟩)).1
    (by decide) (by decide)

/-- C2: for an atomic constraint expression whose template-argument
substitution fails with an SFINAE (trapped) diagnostic, the evaluator
sets the satisfaction flag to false, appends exactly one detail entry
whose record is a substitution diagnostic, returns success (`false`, no
hard failure), and emits no diagnostic (`diags` unchanged). -/
theorem calculateConstraintSatisfaction_sfinae
    (subst : Nat → SubstOutcome) (wf : Nat → Bool)
    (constEval : Nat → Option Bool) (i d : Nat) (st : EvalState)
    (h : subst i = SubstOutcome.sfinaeFail d) :
    calculateConstraintSatisfaction (substEvaluator true subst wf) constEval
        (CExpr.atom i) st
      = (false,
         { isSatisfied := false
           details := st.details ++ [(i, DetailRecord.substDiag d)]
           visited := st.visited ++ [i]
           diags := st.diags }) := by
  simp [calculateConstraintSatisfaction, substEvaluator, h]

/-- Witness for C2 at concrete inputs: an atomic constraint whose
substitution traps SFINAE diagnostic 7. -/
theorem calculateConstraintSatisfaction_sfinae_witness :
    calculateConstraintSatisfaction
        (substEvaluator true (fun _ => SubstOutcome.sfinaeFail 7) (fun _ => true))
        (fun _ => some true) (CExpr.atom 3)
        { isSatisfied := true, details := [], visited := [], diags := 0 }
      = (false,
         { isSatisfied := false
           details := [(3, DetailRecord.substDiag 7)]
           visited := [3]
           diags := 0 }) :=
  calculateConstraintSatisfaction_sfinae (fun _ => SubstOutcome.sfinaeFail 7)
    (fun _ => true) (fun _ => some true) 3 7
    { isSatisfied := true, details := [], visited := [], diags := 0 } rfl

/-- C3: the subsumption engine reports no procedural failure and decides
that `P` subsumes `Q` exactly when, for every clause `Pi` of the DNF of
`P` and every clause `Qj` of the CNF of `Q`, some atom of `Pi` is
related by the leaf predicate `E` to some atom of `Qj`. -/
theorem subsumes_iff_dnf_cnf (E : Nat → Nat → Bool)
    (P Q : NormalizedConstraint) :
    (subsumes E P Q).1 = false ∧
    ((subsumes E P Q).2 = true ↔
      ∀ Pi ∈ makeDNF P, ∀ Qj ∈ makeCNF Q,
        ∃ a ∈ Pi, ∃ b ∈ Qj, E a b = true) := by
  constructor
  · rfl
  · simp [subsumes, List.all_eq_true, List.any_eq_true]

theorem popAllIntoLoop_eq_append_reverse (L R : NormalForm) :
    popAllIntoLoop L R = L ++ R.reverse := by
  induction R using List.reverseRecOn generalizing L with
  | nil => simp [popAllIntoLoop]
  | append_singleton R0 a ih =>
      rw [popAllIntoLoop]
      simp [ih]

/-- C5 counterexample: for the conjunction
`atomic 0 ∧ (atomic 1 ∧ atomic 2)` the CNF produced by `makeCNF` is not
the concatenation of the left normal form with the right normal form in
its original clause order (the pop-back loop reverses the right side's
clauses: the result is `[[0], [2], [1]]`, not `[[0], [1], [2]]`). -/
theorem makeCNF_concat_counterexample :
    makeCNF (NormalizedConstraint.comp true (NormalizedConstraint.atomic 0)
        (NormalizedConstraint.comp true (NormalizedConstraint.atomic 1)
          (NormalizedConstraint.atomic 2)))
      = [[0], [2], [1]]
  ∧ makeCNF (NormalizedConstraint.atomic 0)
      ++ makeCNF (NormalizedConstraint.comp true (NormalizedConstraint.atomic 1)
           (NormalizedConstraint.atomic 2))
      = [[0], [1], [2]]
  ∧ ([[0], [2], [1]] : NormalForm) ≠ [[0], [1], [2]] := by
  refine ⟨?_, ?_, by decide⟩
  · simp [makeCNF, popAllIntoLoop_eq_append_reverse]
  · simp [makeCNF, popAllIntoLoop_eq_append_reverse]

/-- C5 amended: when the compound kind matches the normal form's outer
connective, the builder returns the left side's normal form followed by
the right side's clauses in reversed order (the pop-back loop); the
mismatching kind distributes via the Cartesian product of clauses, pairs
in left-major order, each pair concatenated left-then-right. -/
theorem makeCNF_makeDNF_compound (l r : NormalizedConstraint) :
    makeCNF (NormalizedConstraint.comp true l r)
      = makeCNF l ++ (makeCNF r).reverse
  ∧ makeDNF (NormalizedConstraint.comp false l r)
      = makeDNF l ++ (makeDNF r).reverse
  ∧ makeCNF (NormalizedConstraint.comp false l r)
      = (makeCNF l).flatMap (fun ld => (makeCNF r).map (fun rd => ld ++ rd))
  ∧ makeDNF (NormalizedConstraint.comp true l r)
      = (makeDNF l).flatMap (fun ld => (makeDNF r).map (fun rd => ld ++ rd)) := by
  refine ⟨?_, ?_, ?_, ?_⟩ <;>
    simp [makeCNF, makeDNF, popAllIntoLoop_eq_append_reverse]

/-- C4: evaluating `fromConstraintExprs` on a two-clause sequence whose
first clause fails to normalize (and whose second normalizes fine)
reaches `std::move(*First)` with `First` disengaged: undefined behaviour
instead of propagating `None`. -/
theorem fromConstraintExprs_derefs_disengaged :
    fromConstraintExprs
        (fun e => if e = 0 then none else some (NormalizedConstraint.atomic e))
        [0, 1]
      = Except.error UBEvent.derefDisengaged := by
  rfl

theorem assocLookup_append_single {K V : Type} [DecidableEq K]
    (l : List (K × V)) (k : K) (v : V) (h : assocLookup l k = none) :
    assocLookup (l ++ [(k, v)]) k = some v := by
  induction l with
  | nil => simp [assocLookup]
  | cons p rest ih =>
      rcases p with ⟨k1, v1⟩
      by_cases hk : k1 = k
      · simp [assocLookup, hk] at h
      · simp only [assocLookup, List.cons_append, hk, if_false] at h ⊢
        exact ih h

/-- C6: if a call to the cached `CheckConstraintSatisfaction` succeeds,
then repeating the identical call against the resulting `Sema` state
returns the same `Satisfaction` record (same flag and details) and
leaves the state — in particular the substitution counter — unchanged:
the second call is answered from the cache without re-invoking
substitution, and the cached record is returned by value. -/
theorem CheckConstraintSatisfactionCached_cache_sound
    (eval : AtomicEvaluator) (constEval : Nat → Option Bool)
    (instValid : Bool) (owner : Nat) (innermost : List Nat)
    (exprs : List CExpr) (satIn : SatRecord) (st : SemaState)
    (f1 : Bool) (sat1 : SatRecord) (st1 : SemaState)
    (h : CheckConstraintSatisfactionCached eval constEval instValid owner
           innermost exprs satIn st = (f1, sat1, st1))
    (hf : f1 = false) :
    CheckConstraintSatisfactionCached eval constEval instValid owner
        innermost exprs satIn st1 = (false, sat1, st1) := by
  subst hf
  cases exprs with
  | nil =>
      simp only [CheckConstraintSatisfactionCached] at h ⊢
      injection h with h1 h2
      injection h2 with h2a h2b
      subst h2a
      subst h2b
      rfl
  | cons e0 rest =>
      simp only [CheckConstraintSatisfactionCached] at h ⊢
      cases hl : assocLookup st.satCache (owner, innermost) with
      | some cached =>
          rw [hl] at h
          injection h with h1 h2
          injection h2 with h2a h2b
          subst h2a
          subst h2b
          rw [hl]
      | none =>
          rw [hl] at h
          cases instValid with
          | false => simp at h
          | true =>
              simp only [if_true] at h
              rcases hr : CheckConstraintSatisfactionSeq eval constEval
                  (e0 :: rest)
                  { isSatisfied := false, details := [], visited := [],
                    diags := 0 } with ⟨fr, str⟩
              rw [hr] at h
              cases fr with
              | true => simp at h
              | false =>
                  simp only at h
                  injection h with h1 h2
                  injection h2 with h2a h2b
                  subst h2a
                  subst h2b
                  have hlook : assocLookup
                      (st.satCache ++ [((owner, innermost),
                        { isSatisfied := str.isSatisfied,
                          details := str.details })])
                      (owner, innermost)
                    = some { isSatisfied := str.isSatisfied,
                             details := str.details } :=
                    assocLookup_append_single st.satCache (owner, innermost) _ hl
                  simp only [hlook]

/-- Witness for C6 at concrete inputs: a single satisfied atomic
constraint keyed on owner 0 with empty innermost arguments; the second
call is answered from the cache with the same record, and the
substitution counter stays at 1. -/
theorem CheckConstraintSatisfactionCached_cache_sound_witness :
    CheckConstraintSatisfactionCached identityEvaluator (fun _ => some true)
        true 0 [] [CExpr.atom 0] { isSatisfied := false, details := [] }
        { satCache := [((0, []), { isSatisfied := true, details := [] })],
          substTotal := 1 }
      = (false, { isSatisfied := true, details := [] },
         { satCache := [((0, []), { isSatisfied := true, details := [] })],
           substTotal := 1 }) :=
  CheckConstraintSatisfactionCached_cache_sound identityEvaluator
    (fun _ => some true) true 0 [] [CExpr.atom 0]
    { isSatisfied := false, details := [] } { satCache := [], substTotal := 0 }
    false { isSatisfied := true, details := [] }
    { satCache := [((0, []), { isSatisfied := true, details := [] })],
      substTotal := 1 }
    (by decide) rfl

/-- C7 counterexample: evaluating `atom 0 || atom 1` where `atom 0` is
false and `atom 1` is true yields a satisfied result whose details list
is not empty — it still holds the entry recorded for the unsatisfied
left-hand side. -/
theorem satisfied_with_nonempty_details_counterexample :
    ((CheckConstraintSatisfactionExpr (fun i => some (i == 1))
        (CExpr.or (CExpr.atom 0) (CExpr.atom 1))
        { isSatisfied := false, details := [], visited := [],
          diags := 0 }).2).isSatisfied = true
  ∧ ((CheckConstraintSatisfactionExpr (fun i => some (i == 1))
        (CExpr.or (CExpr.atom 0) (CExpr.atom 1))
        { isSatisfied := false, details := [], visited := [],
          diags := 0 }).2).details = [(0, DetailRecord.exprRec 0)]
  ∧ ((CheckConstraintSatisfactionExpr (fun i => some (i == 1))
        (CExpr.or (CExpr.atom 0) (CExpr.atom 1))
        { isSatisfied := false, details := [], visited := [],
          diags := 0 }).2).details ≠ [] := by
  refine ⟨by decide, by decide, by decide⟩

/-- C7 amended: a satisfied evaluation need not have empty details.  The
details list is append-only, so after `A || B` where `A` evaluates to
unsatisfied and `B` to satisfied, the evaluation succeeds with the state
of the `B`-run, whose details extend those accumulated by `A` (in
particular the entry recorded for `A` is retained). -/
theorem or_rhs_satisfied_keeps_lhs_details
    (eval : AtomicEvaluator) (constEval : Nat → Option Bool)
    (A B : CExpr) (st : EvalState) (happ : EvalAppendsDetails eval)
    (hA1 : (calculateConstraintSatisfaction eval constEval A st).1 = false)
    (hA2 : ((calculateConstraintSatisfaction eval constEval A st).2).isSatisfied
             = false)
    (hB1 : (calculateConstraintSatisfaction eval constEval B
              ((calculateConstraintSatisfaction eval constEval A st).2)).1
             = false)
    (hB2 : ((calculateConstraintSatisfaction eval constEval B
              ((calculateConstraintSatisfaction eval constEval A st).2)).2).isSatisfied
             = true) :
    calculateConstraintSatisfaction eval constEval (CExpr.or A B) st
      = calculateConstraintSatisfaction eval constEval B
          ((calculateConstraintSatisfaction eval constEval A st).2)
  ∧ ∃ ds,
      ((calculateConstraintSatisfaction eval constEval B
          ((calculateConstraintSatisfaction eval constEval A st).2)).2).details
        = ((calculateConstraintSatisfaction eval constEval A st).2).details
            ++ ds := by
  constructor
  · rcases hv : calculateConstraintSatisfaction eval constEval A st with ⟨f, st1⟩
    rw [hv] at hA1 hA2
    simp only at hA1 hA2
    subst hA1
    simp only [calculateConstraintSatisfaction]
    rw [hv]
    simp [hA2]
  · exact calculateConstraintSatisfaction_details_extend eval constEval happ B
      ((calculateConstraintSatisfaction eval constEval A st).2)

/-- Witness for the amended C7 at concrete inputs: `atom 0 || atom 1`
with `atom 0` false and `atom 1` true. -/
theorem or_rhs_satisfied_keeps_lhs_details_witness :
    calculateConstraintSatisfaction identityEvaluator (fun i => some (i == 1))
        (CExpr.or (CExpr.atom 0) (CExpr.atom 1))
        { isSatisfied := false, details := [], visited := [], diags := 0 }
      = calculateConstraintSatisfaction identityEvaluator (fun i => some (i == 1))
          (CExpr.atom 1)
          ((calculateConstraintSatisfaction identityEvaluator
              (fun i => some (i == 1)) (CExpr.atom 0)
              { isSatisfied := false, details := [], visited := [],
                diags := 0 }).2)
  ∧ ∃ ds,
      ((calculateConstraintSatisfaction identityEvaluator (fun i => some (i == 1))
          (CExpr.atom 1)
          ((calculateConstraintSatisfaction identityEvaluator
              (fun i => some (i == 1)) (CExpr.atom 0)
              { isSatisfied := false, details := [], visited := [],
                diags := 0 }).2)).2).details
        = ((calculateConstraintSatisfaction identityEvaluator
              (fun i => some (i == 1)) (CExpr.atom 0)
              { isSatisfied := false, details := [], visited := [],
                diags := 0 }).2).details ++ ds :=
  or_rhs_satisfied_keeps_lhs_details identityEvaluator (fun i => some (i == 1))
    (CExpr.atom 0) (CExpr.atom 1)
    { isSatisfied := false, details := [], visited := [], diags := 0 }
    (fun i s => ⟨[], by simp [identityEvaluator]⟩)
    (by decide) (by decide) (by decide) (by decide)

theorem CheckConstraintExpression_clean
    (dep tyBool : CExpr → Bool) (e : CExpr)
    (h : firstOffendingAtomic dep tyBool e = none) :
    ∀ cs : Bool, CheckConstraintExpression dep tyBool e cs = (true, none, []) := by
  induction e with
  | and l r ihl ihr =>
      intro cs
      simp only [firstOffendingAtomic] at h
      cases hl : firstOffendingAtomic dep tyBool l with
      | some c => rw [hl] at h; simp at h
      | none =>
          rw [hl] at h
          simp [CheckConstraintExpression, ihl hl false, ihr h false]
  | or l r ihl ihr =>
      intro cs
      simp only [firstOffendingAtomic] at h
      cases hl : firstOffendingAtomic dep tyBool l with
      | some c => rw [hl] at h; simp at h
      | none =>
          rw [hl] at h
          simp [CheckConstraintExpression, ihl hl false, ihr h false]
  | atom i =>
      intro cs
      simp only [firstOffendingAtomic] at h
      simp only [CheckConstraintExpression]
      by_cases hd : dep (CExpr.atom i)
      · simp [hd]
      · by_cases ht : tyBool (CExpr.atom i)
        · simp [hd, ht]
        · simp [hd, ht] at h
  | paren e ih =>
      intro cs
      simp only [firstOffendingAtomic] at h
      simp only [CheckConstraintExpression]
      by_cases hd : dep (CExpr.paren e)
      · simp [hd]
      · by_cases ht : tyBool (CExpr.paren e)
        · simp [hd, ht]
        · simp [hd, ht] at h
  | cleanups e ih =>
      intro cs
      simp only [firstOffendingAtomic] at h
      simp only [CheckConstraintExpression]
      by_cases hd : dep (CExpr.cleanups e)
      · simp [hd]
      · by_cases ht : tyBool (CExpr.cleanups e)
        · simp [hd, ht]
        · simp [hd, ht] at h

/-- C8 amended: if the `&&`/`||`-decomposed tree of a constraint
expression contains an offending atomic (non-type-dependent, of
non-`bool` type), `CheckConstraintExpression` returns false and emits
exactly one error, at the first offending atomic in traversal order; but
the culprit out-pointer is written only when the whole expression is
itself that offending atomic — the recursive calls for `&&`/`||`
operands do not forward the out-pointer, so for a compound expression
nothing is written through it. -/
theorem CheckConstraintExpression_offending
    (dep tyBool : CExpr → Bool) (e : CExpr) :
    ∀ (cs : Bool) (c : CExpr),
      firstOffendingAtomic dep tyBool e = some c →
      CheckConstraintExpression dep tyBool e cs
        = (false, if cs && isLeafNode e then some c else none, [c]) := by
  induction e with
  | and l r ihl ihr =>
      intro cs c h
      simp only [firstOffendingAtomic] at h
      cases hl : firstOffendingAtomic dep tyBool l with
      | some cl =>
          rw [hl] at h
          have h2 : some cl = some c := h
          injection h2 with hcc
          subst hcc
          simp [CheckConstraintExpression, ihl false cl hl, isLeafNode]
      | none =>
          rw [hl] at h
          have hr : firstOffendingAtomic dep tyBool r = some c := h
          have hlClean := CheckConstraintExpression_clean dep tyBool l hl false
          simp [CheckConstraintExpression, hlClean, ihr false c hr, isLeafNode]
  | or l r ihl ihr =>
      intro cs c h
      simp only [firstOffendingAtomic] at h
      cases hl : firstOffendingAtomic dep tyBool l with
      | some cl =>
          rw [hl] at h
          have h2 : some cl = some c := h
          injection h2 with hcc
          subst hcc
          simp [CheckConstraintExpression, ihl false cl hl, isLeafNode]
      | none =>
          rw [hl] at h
          have hr : firstOffendingAtomic dep tyBool r = some c := h
          have hlClean := CheckConstraintExpression_clean dep tyBool l hl false
          simp [CheckConstraintExpression, hlClean, ihr false c hr, isLeafNode]
  | atom i =>
      intro cs c h
      simp only [firstOffendingAtomic] at h
      by_cases hd : dep (CExpr.atom i)
      · simp [hd] at h
      · by_cases ht : tyBool (CExpr.atom i)
        · simp [hd, ht] at h
        · simp only [hd, ht, if_false] at h
          have h2 : some (CExpr.atom i) = some c := by simpa [hd, ht] using h
          injection h2 with hcc
          subst hcc
          simp [CheckConstraintExpression, hd, ht, isLeafNode]
  | paren e ih =>
      intro cs c h
      simp only [firstOffendingAtomic] at h
      by_cases hd : dep (CExpr.paren e)
      · simp [hd] at h
      · by_cases ht : tyBool (CExpr.paren e)
        · simp [hd, ht] at h
        · have h2 : some (CExpr.paren e) = some c := by simpa [hd, ht] using h
          injection h2 with hcc
          subst hcc
          simp [CheckConstraintExpression, hd, ht, isLeafNode]
  | cleanups e ih =>
      intro cs c h
      simp only [firstOffendingAtomic] at h
      by_cases hd : dep (CExpr.cleanups e)
      · simp [hd] at h
      · by_cases ht : tyBool (CExpr.cleanups e)
        · simp [hd, ht] at h
        · have h2 : some (CExpr.cleanups e) = some c := by simpa [hd, ht] using h
          injection h2 with hcc
          subst hcc
          simp [CheckConstraintExpression, hd, ht, isLeafNode]

/-- C8 counterexample: `atom 0 && atom 1` where `atom 0` is
non-dependent of non-`bool` type.  The checker returns false and emits
exactly one error at `atom 0`, but nothing is written through the
supplied culprit out-pointer (the value component is `none`, not
`some (atom 0)`). -/
theorem CheckConstraintExpression_culprit_counterexample :
    CheckConstraintExpression (fun _ => false)
        (fun e => match e with | CExpr.atom 0 => false | _ => true)
        (CExpr.and (CExpr.atom 0) (CExpr.atom 1)) true
      = (false, none, [CExpr.atom 0])
  ∧ firstOffendingAtomic (fun _ => false)
        (fun e => match e with | CExpr.atom 0 => false | _ => true)
        (CExpr.and (CExpr.atom 0) (CExpr.atom 1))
      = some (CExpr.atom 0)
  ∧ (none : Option CExpr) ≠ some (CExpr.atom 0) := by
  refine ⟨by decide, by decide, by decide⟩

/-- Witness for the amended C8 at concrete inputs: the compound case
(culprit not written) and the leaf case (culprit written). -/
theorem CheckConstraintExpression_offending_witness :
    CheckConstraintExpression (fun _ => false)
        (fun e => match e with | CExpr.atom 0 => false | _ => true)
        (CExpr.and (CExpr.atom 0) (CExpr.atom 1)) true
      = (false, none, [CExpr.atom 0])
  ∧ CheckConstraintExpression (fun _ => false)
        (fun e => match e with | CExpr.atom 0 => false | _ => true)
        (CExpr.atom 0) true
      = (false, some (CExpr.atom 0), [CExpr.atom 0]) :=
  ⟨CheckConstraintExpression_offending (fun _ => false)
      (fun e => match e with | CExpr.atom 0 => false | _ => true)
      (CExpr.and (CExpr.atom 0) (CExpr.atom 1)) true (CExpr.atom 0) (by decide),
   CheckConstraintExpression_offending (fun _ => false)
      (fun e => match e with | CExpr.atom 0 => false | _ => true)
      (CExpr.atom 0) true (CExpr.atom 0) (by decide)⟩

/-- C9: with non-empty constraint lists on both sides and a subsumption
cache miss, a call to `IsAtLeastAsConstrained` whose normalization fails
on either side returns false with the invalid out-flag set — and that
boolean `false` is nevertheless inserted into the subsumption cache
under the ordered key `(D1, D2)`; every subsequent call that reaches the
cache with the same pair returns the cached boolean with the invalid
out-flag left at `false` and the cache unchanged. -/
theorem IsAtLeastAsConstrained_caches_invalid_result
    (normalize : Nat → List Nat → Option NormalizedConstraint)
    (E : Nat → Nat → Bool) (D1 : Nat) (AC1 : List Nat) (D2 : Nat)
    (AC2 : List Nat) (cache : List ((Nat × Nat) × Bool))
    (h1 : AC1 ≠ []) (h2 : AC2 ≠ [])
    (hmiss : assocLookup cache (D1, D2) = none)
    (hnorm : normalize D1 AC1 = none ∨ normalize D2 AC2 = none) :
    ((IsAtLeastAsConstrained normalize E D1 AC1 D2 AC2 cache).1 = false
      ∧ (IsAtLeastAsConstrained normalize E D1 AC1 D2 AC2 cache).2.1 = true
      ∧ assocLookup ((IsAtLeastAsConstrained normalize E D1 AC1 D2 AC2
            cache).2.2) (D1, D2) = some false)
  ∧ ∀ (AC3 AC4 : List Nat) (cache2 : List ((Nat × Nat) × Bool)),
      AC3 ≠ [] → AC4 ≠ [] →
      assocLookup cache2 (D1, D2) = some false →
      IsAtLeastAsConstrained normalize E D1 AC3 D2 AC4 cache2
        = (false, false, cache2) := by
  constructor
  · cases AC1 with
    | nil => exact absurd rfl h1
    | cons a1 r1 =>
        cases AC2 with
        | nil => exact absurd rfl h2
        | cons a2 r2 =>
            simp only [IsAtLeastAsConstrained, hmiss]
            have hinner : IsAtLeastAsConstrainedInner normalize E D1 (a1 :: r1)
                D2 (a2 :: r2) = (false, true) := by
              rcases hnorm with hn | hn
              · simp [IsAtLeastAsConstrainedInner, hn]
              · cases hn1 : normalize D1 (a1 :: r1) with
                | none => simp [IsAtLeastAsConstrainedInner, hn1]
                | some n1 => simp [IsAtLeastAsConstrainedInner, hn1, hn]
            rw [hinner]
            refine ⟨rfl, rfl, ?_⟩
            exact assocLookup_append_single cache (D1, D2) false hmiss
  · intro AC3 AC4 cache2 h3 h4 hhit
    cases AC3 with
    | nil => exact absurd rfl h3
    | cons a3 r3 =>
        cases AC4 with
        | nil => exact absurd rfl h4
        | cons a4 r4 =>
            simp only [IsAtLeastAsConstrained, hhit]

/-- Witness for C9 at concrete inputs: both normalizations fail, the
first call caches `false`, the second call is answered from the cache
with the invalid flag at `false`. -/
theorem IsAtLeastAsConstrained_caches_invalid_result_witness :
    ((IsAtLeastAsConstrained (fun _ _ => none) (fun _ _ => false)
        0 [5] 1 [6] []).1 = false
      ∧ (IsAtLeastAsConstrained (fun _ _ => none) (fun _ _ => false)
          0 [5] 1 [6] []).2.1 = true
      ∧ assocLookup ((IsAtLeastAsConstrained (fun _ _ => none)
          (fun _ _ => false) 0 [5] 1 [6] []).2.2) (0, 1) = some false)
  ∧ ∀ (AC3 AC4 : List Nat) (cache2 : List ((Nat × Nat) × Bool)),
      AC3 ≠ [] → AC4 ≠ [] →
      assocLookup cache2 (0, 1) = some false →
      IsAtLeastAsConstrained (fun _ _ => none) (fun _ _ => false)
          0 AC3 1 AC4 cache2
        = (false, false, cache2) :=
  IsAtLeastAsConstrained_caches_invalid_result (fun _ _ => none)
    (fun _ _ => false) 0 [5] 1 [6] [] (by decide) (by decide) rfl
    (Or.inl rfl)

/-- C10: the cached `CheckConstraintSatisfaction` entry point, called
with an empty list of constraint expressions, returns success with a
satisfied record and returns before the cache branch: the `Sema` state —
for any state, so for any cache contents — is returned unchanged. -/
theorem CheckConstraintSatisfactionCached_empty
    (eval : AtomicEvaluator) (constEval : Nat → Option Bool)
    (instValid : Bool) (owner : Nat) (innermost : List Nat)
    (satIn : SatRecord) (st : SemaState) :
    CheckConstraintSatisfactionCached eval constEval instValid owner innermost
        [] satIn st
      = (false, { satIn with isSatisfied := true }, st) := rfl
